import Mathlib

/-!
Verification development for a minimal structured-extraction client
(`src/main.js`): a prompt builder, a model client with bounded retries,
and an output extractor that locates and parses a JSON object inside a
model completion.  The pipeline pieces that live in library code (the
chat-prompt formatting, the JSON output parsing, the retry loop) are
modelled from the specification, faithful to its words; the
configuration constants, the templates and the `parseProduct` driver are
taken directly from `src/main.js`.
-/

/-- Error taxonomy of the pipeline, following the specification's §7:
configuration failure, exhausted retries, and parse failure.  The
diagnostic payload (raw text) carried by a parse failure is omitted from
the model; only the failure kind matters to the claims. -/
inductive PipelineError where
  | configError
  | exhaustedRetries
  | parseError
deriving DecidableEq

/-- Message roles used by the prompt (src/main.js lines 29-40). -/
inductive Role where
  | system
  | user
deriving DecidableEq

/-- A role-tagged chat message, the ChatMessage entity of the spec's §3. -/
structure ChatMessage where
  role : Role
  content : String
deriving DecidableEq

/-- JSON values, the data the output extractor operates on.  Numbers are
modelled as integers (the schema's `price` is an integral number in every
example; no claim depends on fractional numbers). -/
inductive Json where
  | null
  | bool (b : Bool)
  | num (n : Int)
  | str (s : String)
  | arr (items : List Json)
  | obj (fields : List (String × Json))

/-- The raw system template of src/main.js lines 32-37, with the doubled
braces that the template language uses to escape literal braces. -/
def sysTemplate : String := "Extract product details into JSON with this structure:\n\x7b\x7b\n  \"name\": \"product name here\",\n  \"price\": number_here_without_currency_symbol,\n  \"features\": [\"feature1\", \"feature2\", \"feature3\"]\n\x7d\x7d"

/-- The raw user template of src/main.js line 39. -/
def userTemplate : String := "\x7binput\x7d"

/-- Modelled from the spec: the template substitution step of the prompt
formatting (library code, not in src): `\x7b\x7b` and `\x7d\x7d` unescape
to single braces and the `\x7binput\x7d` placeholder is replaced by the
input text verbatim; the inserted text is not re-scanned. -/
def substCore (inp : List Char) : List Char → List Char
  | '\x7b' :: '\x7b' :: rest => '\x7b' :: substCore inp rest
  | '\x7d' :: '\x7d' :: rest => '\x7d' :: substCore inp rest
  | '\x7b' :: 'i' :: 'n' :: 'p' :: 'u' :: 't' :: '\x7d' :: rest => inp ++ substCore inp rest
  | c :: rest => c :: substCore inp rest
  | [] => []

/-- Format one message template against the input text. -/
def formatTemplate (t : String) (inp : String) : String :=
  String.mk (substCore inp.data t.data)

/-- The two message templates of the prompt, in the order given in
src/main.js lines 29-40. -/
def promptMessages : List (Role × String) :=
  [(Role.system, sysTemplate), (Role.user, userTemplate)]

/-- The Prompt Builder: format every template of the prompt against the
input text (src/main.js lines 29-40). -/
def formatPrompt (inp : String) : List ChatMessage :=
  promptMessages.map (fun p => ⟨p.1, formatTemplate p.2 inp⟩)

/-- The fixed system message content after unescaping the doubled braces. -/
def fixedSystemContent : String := "Extract product details into JSON with this structure:\n\x7b\n  \"name\": \"product name here\",\n  \"price\": number_here_without_currency_symbol,\n  \"features\": [\"feature1\", \"feature2\", \"feature3\"]\n\x7d"

/-- Whitespace as skipped between JSON tokens. -/
def isWsChar (c : Char) : Bool :=
  c == ' ' || c == '\r' || c == '\n' || c == '\t'

/-- Drop leading whitespace. -/
def skipWs : List Char → List Char
  | [] => []
  | c :: r => if isWsChar c then skipWs r else c :: r

/-- Span of leading decimal digits. -/
def spanDigits : List Char → List Char × List Char
  | [] => ([], [])
  | c :: r =>
    if c.isDigit then
      let p := spanDigits r
      (c :: p.1, p.2)
    else ([], c :: r)

/-- Numeric value of a digit character. -/
def digitVal (c : Char) : Nat := c.toNat - 48

/-- Decimal value of a digit string. -/
def charsToNat (l : List Char) : Nat :=
  l.foldl (fun a c => 10 * a + digitVal c) 0

/-- Parse a JSON number (optional sign, decimal digits). -/
def parseNum (l : List Char) : Option (Int × List Char) :=
  match l with
  | [] => none
  | c :: r =>
    if c == '-' then
      let p := spanDigits r
      if p.1.isEmpty then none else some (-(charsToNat p.1 : Int), p.2)
    else
      let p := spanDigits (c :: r)
      if p.1.isEmpty then none else some ((charsToNat p.1 : Int), p.2)

/-- Resolve a JSON string escape. -/
def unescChar : Char → Option Char
  | 'n' => some '\n'
  | 't' => some '\t'
  | '"' => some '"'
  | '\\' => some '\\'
  | '/' => some '/'
  | _ => none

mutual
/-- Parse the body of a JSON string after the opening quote; returns the
decoded characters and the remainder after the closing quote. -/
def parseStringBody : List Char → Option (List Char × List Char)
  | [] => none
  | c :: r =>
    if c == '"' then some ([], r)
    else if c == '\\' then parseEscaped r
    else
      match parseStringBody r with
      | some p => some (c :: p.1, p.2)
      | none => none

/-- Parse the remainder of a JSON string right after a backslash. -/
def parseEscaped : List Char → Option (List Char × List Char)
  | [] => none
  | e :: r2 =>
    match unescChar e, parseStringBody r2 with
    | some d, some p => some (d :: p.1, p.2)
    | _, _ => none
end

/-- Expect a fixed character sequence at the head of the input. -/
def expectChars : List Char → List Char → Option (List Char)
  | [], l => some l
  | _ :: _, [] => none
  | p :: ps, c :: r => if c == p then expectChars ps r else none

mutual
/-- Modelled from the spec: the JSON reading step of the Output
Extractor (`JsonOutputParser` is library code, not in src).  Parses one
JSON value, fuelled to bound recursion depth. -/
def parseVal : Nat → List Char → Option (Json × List Char)
  | 0, _ => none
  | Nat.succ fuel, l =>
    match skipWs l with
    | [] => none
    | c :: r =>
      if c == '"' then
        match parseStringBody r with
        | some p => some (.str (String.mk p.1), p.2)
        | none => none
      else if c == '[' then
        match skipWs r with
        | [] => none
        | c2 :: r2 =>
          if c2 == ']' then some (.arr [], r2)
          else
            match parseItems fuel (c2 :: r2) with
            | some p => some (.arr p.1, p.2)
            | none => none
      else if c == '\x7b' then
        match skipWs r with
        | [] => none
        | c2 :: r2 =>
          if c2 == '\x7d' then some (.obj [], r2)
          else
            match parseFieldItems fuel (c2 :: r2) with
            | some p => some (.obj p.1, p.2)
            | none => none
      else if c == 't' then
        match expectChars ['r', 'u', 'e'] r with
        | some r2 => some (.bool true, r2)
        | none => none
      else if c == 'f' then
        match expectChars ['a', 'l', 's', 'e'] r with
        | some r2 => some (.bool false, r2)
        | none => none
      else if c == 'n' then
        match expectChars ['u', 'l', 'l'] r with
        | some r2 => some (.null, r2)
        | none => none
      else
        match parseNum (c :: r) with
        | some p => some (.num p.1, p.2)
        | none => none

/-- Parse the comma-separated items of a non-empty JSON array, up to and
including the closing bracket. -/
def parseItems : Nat → List Char → Option (List Json × List Char)
  | 0, _ => none
  | Nat.succ fuel, l =>
    match parseVal fuel l with
    | none => none
    | some (v, r) =>
      match skipWs r with
      | [] => none
      | c :: r2 =>
        if c == ',' then
          match parseItems fuel r2 with
          | some p => some (v :: p.1, p.2)
          | none => none
        else if c == ']' then some ([v], r2)
        else none

/-- Parse the comma-separated fields of a non-empty JSON object, up to
and including the closing brace. -/
def parseFieldItems : Nat → List Char → Option (List (String × Json) × List Char)
  | 0, _ => none
  | Nat.succ fuel, l =>
    match skipWs l with
    | [] => none
    | c :: r =>
      if c == '"' then
        match parseStringBody r with
        | none => none
        | some kp =>
          match skipWs kp.2 with
          | [] => none
          | c2 :: r2 =>
            if c2 == ':' then
              match parseVal fuel r2 with
              | none => none
              | some (v, r3) =>
                match skipWs r3 with
                | [] => none
                | c3 :: r4 =>
                  if c3 == ',' then
                    match parseFieldItems fuel r4 with
                    | some p => some ((String.mk kp.1, v) :: p.1, p.2)
                    | none => none
                  else if c3 == '\x7d' then some ([(String.mk kp.1, v)], r4)
                  else none
            else none
      else none
end

/-- Modelled from the spec: the locating step of the Output Extractor
(library code, not in src) — the candidate JSON text runs from the first
opening brace to the last closing brace, which tolerates surrounding
prose, markdown code fences and trailing explanation. -/
def extractCandidate (l : List Char) : Option (List Char) :=
  let t := l.dropWhile (fun c => c != '\x7b')
  let u := (t.reverse.dropWhile (fun c => c != '\x7d')).reverse
  if u.isEmpty then none else some u

/-- The first required field name of the declared structure. -/
def kName : String := "name"

/-- The second required field name of the declared structure. -/
def kPrice : String := "price"

/-- The third required field name of the declared structure. -/
def kFeatures : String := "features"

/-- Look a field up in a parsed JSON object. -/
def getField (fs : List (String × Json)) (k : String) : Option Json :=
  List.lookup k fs

/-- Whether a JSON value is a string. -/
def isStrVal : Json → Bool
  | .str _ => true
  | _ => false

/-- Modelled from the spec: success requires the three declared fields
with the declared types — `name` a string, `price` a number, `features`
an array of strings (spec §4.3, structure declared in src/main.js lines
17-26). -/
def validateFields (fs : List (String × Json)) : Bool :=
  match getField fs kName, getField fs kPrice, getField fs kFeatures with
  | some (.str _), some (.num _), some (.arr items) => items.all isStrVal
  | _, _, _ => false

/-- Modelled from the spec: the validation step of the Output Extractor;
a valid object passes through unmodified (spec §9 recommends a
non-strict schema for extra fields). -/
def validateJson (j : Json) : Except PipelineError Json :=
  match j with
  | .obj fs => if validateFields fs then .ok j else .error .parseError
  | _ => .error .parseError

/-- The Output Extractor on a character list: locate the candidate JSON
text, parse it completely, validate the declared fields. -/
def parserModelL (l : List Char) : Except PipelineError Json :=
  match extractCandidate l with
  | none => .error .parseError
  | some cand =>
    match parseVal (cand.length + 1) cand with
    | some (j, []) => validateJson j
    | _ => .error .parseError

/-- The Output Extractor on a completion text. -/
def parserModel (s : String) : Except PipelineError Json :=
  parserModelL s.data

/-- Character of a decimal digit value. -/
def digitChar (d : Nat) : Char :=
  match d with
  | 0 => '0'
  | 1 => '1'
  | 2 => '2'
  | 3 => '3'
  | 4 => '4'
  | 5 => '5'
  | 6 => '6'
  | 7 => '7'
  | 8 => '8'
  | _ => '9'

/-- Decimal digit string of a natural number. -/
def natToChars (n : Nat) : List Char :=
  if _h : n < 10 then [digitChar n]
  else natToChars (n / 10) ++ [digitChar (n % 10)]
decreasing_by exact Nat.div_lt_self (by omega) (by omega)

/-- Escape one character for a JSON string literal. -/
def escChar (c : Char) : List Char :=
  if c == '"' then ['\\', '"']
  else if c == '\\' then ['\\', '\\']
  else if c == '\n' then ['\\', 'n']
  else if c == '\t' then ['\\', 't']
  else [c]

/-- Escape a character list for a JSON string literal. -/
def escapeChars : List Char → List Char
  | [] => []
  | c :: r => escChar c ++ escapeChars r

/-- Serialize a string as a JSON string literal. -/
def serializeString (s : String) : List Char :=
  '"' :: (escapeChars s.data ++ ['"'])

/-- Serialize an integer as a JSON number. -/
def serializeNum (n : Int) : List Char :=
  if n < 0 then '-' :: natToChars n.natAbs else natToChars n.natAbs

mutual
/-- Compact serialization of a JSON value; characterizes the bare,
well-formed JSON texts the round-trip properties quantify over. -/
def serialize : Json → List Char
  | .str s => serializeString s
  | .num n => serializeNum n
  | .bool b => if b then ['t', 'r', 'u', 'e'] else ['f', 'a', 'l', 's', 'e']
  | .null => ['n', 'u', 'l', 'l']
  | .arr items => '[' :: (serializeItemsL items ++ [']'])
  | .obj fields => '\x7b' :: (serializeFieldsL fields ++ ['\x7d'])

/-- Compact serialization of array items. -/
def serializeItemsL : List Json → List Char
  | [] => []
  | [v] => serialize v
  | v :: vs => serialize v ++ ',' :: serializeItemsL vs

/-- Compact serialization of object fields. -/
def serializeFieldsL : List (String × Json) → List Char
  | [] => []
  | [(k, v)] => serializeString k ++ ':' :: serialize v
  | (k, v) :: fs => serializeString k ++ ':' :: (serialize v ++ ',' :: serializeFieldsL fs)
end

mutual
/-- Size measure of a JSON value, matching the fuel consumption of the
parser. -/
def jsize : Json → Nat
  | .null => 1
  | .bool _ => 1
  | .num _ => 1
  | .str _ => 1
  | .arr items => 1 + isize items
  | .obj fields => 1 + fsize fields

/-- Size measure of array items. -/
def isize : List Json → Nat
  | [] => 0
  | v :: vs => 1 + jsize v + isize vs

/-- Size measure of object fields. -/
def fsize : List (String × Json) → Nat
  | [] => 0
  | (_, v) :: fs => 1 + jsize v + fsize fs
end

/-- Indentation of the formatted serialization. -/
def indentChars (n : Nat) : List Char :=
  List.replicate n ' '

mutual
/-- Formatted serialization of a JSON value at a given indentation,
modelling the platform serializer invoked as JSON.stringify(result,
null, 2) in src/main.js line 47. -/
def stringifyAux : Nat → Json → List Char
  | _, .str s => serializeString s
  | _, .num n => serializeNum n
  | _, .bool b => if b then ['t', 'r', 'u', 'e'] else ['f', 'a', 'l', 's', 'e']
  | _, .null => ['n', 'u', 'l', 'l']
  | _, .arr [] => ['[', ']']
  | ind, .arr (v :: vs) =>
    '[' :: '\n' :: (indentChars (ind + 2) ++ (stringifyItems (ind + 2) (v :: vs) ++ '\n' :: (indentChars ind ++ [']'])))
  | _, .obj [] => ['\x7b', '\x7d']
  | ind, .obj (f :: fs) =>
    '\x7b' :: '\n' :: (indentChars (ind + 2) ++ (stringifyFieldsL (ind + 2) (f :: fs) ++ '\n' :: (indentChars ind ++ ['\x7d'])))

/-- Formatted serialization of array items, one per line. -/
def stringifyItems : Nat → List Json → List Char
  | _, [] => []
  | ind, [v] => stringifyAux ind v
  | ind, v :: vs => stringifyAux ind v ++ ',' :: '\n' :: (indentChars ind ++ stringifyItems ind vs)

/-- Formatted serialization of object fields, one per line. -/
def stringifyFieldsL : Nat → List (String × Json) → List Char
  | _, [] => []
  | ind, [(k, v)] => serializeString k ++ ':' :: ' ' :: stringifyAux ind v
  | ind, (k, v) :: fs =>
    serializeString k ++ ':' :: ' ' :: (stringifyAux ind v ++ ',' :: '\n' :: (indentChars ind ++ stringifyFieldsL ind fs))
end

/-- The formatted JSON text written to standard output for a result. -/
def stringifyFmt (j : Json) : String :=
  String.mk (stringifyAux 0 j)

/-- Process-wide model configuration, the ModelConfig entity of the
spec's §3. -/
structure ModelConfig where
  model : String
  temperature : Rat
  maxTokens : Option Nat
  maxRetries : Nat

/-- The configuration constructed in src/main.js lines 9-14. -/
def llm : ModelConfig :=
  { model := "llama-3.3-70b-versatile"
    temperature := 7 / 10
    maxTokens := none
    maxRetries := 2 }

/-- Modelled from the spec: the bounded retry loop of the Model Client
(library code, not in src).  `attempt i` is the outcome of the i-th
outbound request (`none` = transient failure); the loop runs at most the
given number of attempts starting at the given index, and also reports
how many outbound requests were made. -/
def runAttempts (attempt : Nat → Option α) : Nat → Nat → Except PipelineError α × Nat
  | _, 0 => (.error .exhaustedRetries, 0)
  | i, Nat.succ n =>
    match attempt i with
    | some x => (.ok x, 1)
    | none =>
      let p := runAttempts attempt (i + 1) n
      (p.1, p.2 + 1)

/-- Modelled from the spec: the Model Client (library code, not in src).
A missing or invalid credential is fatal before any outbound request;
otherwise up to maxRetries + 1 attempts are made.  The second component
counts outbound network requests. -/
def modelClient (apiKey : Option String) (credValid : String → Bool)
    (cfg : ModelConfig) (attempt : Nat → Option α) : Except PipelineError α × Nat :=
  match apiKey with
  | none => (.error .configError, 0)
  | some k =>
    if credValid k then runAttempts attempt 0 (cfg.maxRetries + 1)
    else (.error .configError, 0)

/-- The chain of src/main.js line 43: prompt, then model completion,
then output extraction.  The model call is abstracted as a function from
the formatted messages to a completion text or a failure. -/
def chainModel (complete : List ChatMessage → Except PipelineError String)
    (input : String) : Except PipelineError Json :=
  match complete (formatPrompt input) with
  | .error e => .error e
  | .ok text => parserModel text

/-- The driver of src/main.js lines 45-49: invoke the chain, write the
formatted serialization of the result to standard output, return the
result.  The first component of a success is the list of lines written
to standard output. -/
def parseProductModel (complete : List ChatMessage → Except PipelineError String)
    (description : String) : Except PipelineError (List String × Json) :=
  match chainModel complete description with
  | .error e => .error e
  | .ok result => .ok ([stringifyFmt result], result)

/-- A sequence of independent Output Extractor invocations. -/
def parserRuns (inputs : List String) : List (Except PipelineError Json) :=
  inputs.map parserModel

/-- A sequence of independent Prompt Builder invocations. -/
def promptRuns (inputs : List String) : List (List ChatMessage) :=
  inputs.map formatPrompt

/-- Whether the first list is a prefix of the second. -/
def isPrefixL : List Char → List Char → Bool
  | [], _ => true
  | a :: as, l =>
    match l with
    | [] => false
    | b :: bs => a == b && isPrefixL as bs

/-- Whether the first list occurs contiguously inside the second. -/
def hasSubstr (needle : List Char) : List Char → Bool
  | [] => isPrefixL needle []
  | c :: rest => isPrefixL needle (c :: rest) || hasSubstr needle rest

/-- Whether a list does not begin with a digit. -/
def headNotDigit : List Char → Bool
  | [] => true
  | c :: _ => !c.isDigit

/-- A completion whose JSON object lacks the `price` field. -/
def exMissingPrice : String := "\x7b\"name\": \"Speedster\", \"features\": [\"dual boilers\"]\x7d"

/-- A completion that is a bare, well-formed JSON object with all three
required fields. -/
def exGoodText : String := "\x7b\"name\": \"Speedster\", \"price\": 14499, \"features\": [\"dual boilers\"]\x7d"

/-- The parsed fields of `exGoodText`. -/
def exGoodFields : List (String × Json) :=
  [(kName, Json.str ("Speedster")), (kPrice, Json.num 14499),
    (kFeatures, Json.arr [Json.str ("dual boilers")])]

/-- A valid field list carrying an extra, undeclared field. -/
def exExtraFields : List (String × Json) :=
  [(("color" : String), Json.str ("red")), (kName, Json.str ("X")), (kPrice, Json.num 5),
    (kFeatures, Json.arr [])]

/-- Prose and markdown fence before the JSON object; contains no
opening brace. -/
def exC4Pre : String := "Here is the JSON you asked for:\n\x60\x60\x60json\n"

/-- Fence and trailing explanation after the JSON object; contains no
closing brace. -/
def exC4Post : String := "\n\x60\x60\x60\nLet me know if you need anything else."

/-- A stubbed model call returning a fixed completion text. -/
def exComplete : List ChatMessage → Except PipelineError String :=
  fun _ => Except.ok exGoodText

/-- A simulated network that fails transiently on the first two
attempts and succeeds on the third. -/
def exAttempt : Nat → Option String :=
  fun i => if i < 2 then none else some ("ok")

/-- Rebuilding a string from its characters is the identity. -/
theorem stringMk_data (s : String) : String.mk s.data = s := rfl

/-- String concatenation concatenates the character lists. -/
theorem string_data_append (a b : String) : (a ++ b).data = a.data ++ b.data := by
  cases a
  cases b
  rfl

/-- Leading whitespace skipping fixes a list whose head is not
whitespace. -/
theorem skipWs_cons (c : Char) (l : List Char) (h : isWsChar c = false) :
    skipWs (c :: l) = c :: l := by
  simp [skipWs, h]

/-- dropWhile over a concatenation whose left part satisfies the
predicate everywhere. -/
theorem dropWhile_append_all (p : Char → Bool) (a b : List Char)
    (h : ∀ c ∈ a, p c = true) : List.dropWhile p (a ++ b) = List.dropWhile p b := by
  induction a with
  | nil => rfl
  | cons x xs ih =>
    have hx : p x = true := h x (by simp)
    simp only [List.cons_append, List.dropWhile_cons, hx, if_true]
    exact ih (fun c hc => h c (by simp [hc]))

/-- dropWhile fixes a list whose head falsifies the predicate. -/
theorem dropWhile_cons_false (p : Char → Bool) (c : Char) (l : List Char)
    (h : p c = false) : List.dropWhile p (c :: l) = c :: l := by
  simp [List.dropWhile_cons, h]

/-- A nonempty list is not `isEmpty`. -/
theorem isEmpty_false_of_ne_nil (l : List Char) (h : l ≠ []) : l.isEmpty = false := by
  cases l with
  | nil => exact absurd rfl h
  | cons a r => rfl

/-- A digit character differs from any non-digit character. -/
theorem isDigit_ne (c x : Char) (h : c.isDigit = true) (hx : x.isDigit = false) :
    (c == x) = false := by
  cases he : c == x with
  | false => rfl
  | true =>
    have e : c = x := eq_of_beq he
    subst e
    rw [h] at hx
    exact absurd hx (by simp)

/-- A digit character is not whitespace. -/
theorem isDigit_not_ws (c : Char) (h : c.isDigit = true) : isWsChar c = false := by
  cases hw : isWsChar c with
  | false => rfl
  | true =>
    have hc : ((c = ' ' ∨ c = '\r') ∨ c = '\n') ∨ c = '\t' := by
      simpa [isWsChar] using hw
    rcases hc with ((e | e) | e) | e <;> subst e <;> exact absurd h (by decide)

/-- Digit characters are digits. -/
theorem digitChar_isDigit (d : Nat) : (digitChar d).isDigit = true := by
  unfold digitChar
  split <;> decide

/-- Digit characters decode to their value. -/
theorem digitVal_digitChar (d : Nat) (h : d < 10) : digitVal (digitChar d) = d := by
  interval_cases d <;> decide

/-- The decimal digit string is never empty. -/
theorem natToChars_ne_nil (n : Nat) : natToChars n ≠ [] := by
  rw [natToChars]
  split <;> simp

/-- Every character of the decimal digit string is a digit. -/
theorem natToChars_digits (n : Nat) : ∀ c ∈ natToChars n, c.isDigit = true := by
  induction n using Nat.strong_induction_on with
  | _ n ih =>
    rw [natToChars]
    by_cases h : n < 10
    · simp only [h, dite_true]
      intro c hc
      simp at hc
      subst hc
      exact digitChar_isDigit n
    · simp only [h, dite_false]
      intro c hc
      rw [List.mem_append] at hc
      rcases hc with hc | hc
      · exact ih (n / 10) (Nat.div_lt_self (by omega) (by omega)) c hc
      · simp at hc
        subst hc
        exact digitChar_isDigit _

/-- Folding one more digit multiplies by ten and adds it. -/
theorem charsToNat_append_singleton (a : List Char) (c : Char) :
    charsToNat (a ++ [c]) = 10 * charsToNat a + digitVal c := by
  simp [charsToNat, List.foldl_append]

/-- Decoding the decimal digit string of a natural number gives it back. -/
theorem charsToNat_natToChars (n : Nat) : charsToNat (natToChars n) = n := by
  induction n using Nat.strong_induction_on with
  | _ n ih =>
    rw [natToChars]
    by_cases h : n < 10
    · simp only [h, dite_true]
      simp [charsToNat, digitVal_digitChar n h]
    · simp only [h, dite_false]
      rw [charsToNat_append_singleton,
        ih (n / 10) (Nat.div_lt_self (by omega) (by omega)),
        digitVal_digitChar (n % 10) (by omega)]
      omega

/-- The digit span of an all-digit list followed by a non-digit head. -/
theorem spanDigits_append (a b : List Char) (ha : ∀ c ∈ a, c.isDigit = true)
    (hb : headNotDigit b = true) : spanDigits (a ++ b) = (a, b) := by
  induction a with
  | nil =>
    cases b with
    | nil => rfl
    | cons c r =>
      have hc : c.isDigit = false := by simpa [headNotDigit] using hb
      simp [spanDigits, hc]
  | cons x xs ih =>
    have hx : x.isDigit = true := ha x (by simp)
    show spanDigits (x :: (xs ++ b)) = (x :: xs, b)
    rw [spanDigits, if_pos hx, ih (fun c hc => ha c (by simp [hc]))]

/-- Parsing a string body that was produced by escaping recovers the
original characters and leaves exactly the trailing input. -/
theorem parseStringBody_escape (s rest : List Char) :
    parseStringBody (escapeChars s ++ '"' :: rest) = some (s, rest) := by
  induction s with
  | nil =>
    show parseStringBody ('"' :: rest) = some ([], rest)
    rfl
  | cons c cs ih =>
    by_cases h1 : c = '"'
    · subst h1
      show parseStringBody ('\\' :: '"' :: (escapeChars cs ++ '"' :: rest)) = _
      have st : parseStringBody ('\\' :: '"' :: (escapeChars cs ++ '"' :: rest)) =
          (match unescChar '"', parseStringBody (escapeChars cs ++ '"' :: rest) with
           | some d, some p => some (d :: p.1, p.2)
           | _, _ => none) := rfl
      rw [st, ih]
      simp [unescChar]
    · by_cases h2 : c = '\\'
      · subst h2
        show parseStringBody ('\\' :: '\\' :: (escapeChars cs ++ '"' :: rest)) = _
        have st : parseStringBody ('\\' :: '\\' :: (escapeChars cs ++ '"' :: rest)) =
            (match unescChar '\\', parseStringBody (escapeChars cs ++ '"' :: rest) with
             | some d, some p => some (d :: p.1, p.2)
             | _, _ => none) := rfl
        rw [st, ih]
        simp [unescChar]
      · by_cases h3 : c = '\n'
        · subst h3
          show parseStringBody ('\\' :: 'n' :: (escapeChars cs ++ '"' :: rest)) = _
          have st : parseStringBody ('\\' :: 'n' :: (escapeChars cs ++ '"' :: rest)) =
              (match unescChar 'n', parseStringBody (escapeChars cs ++ '"' :: rest) with
               | some d, some p => some (d :: p.1, p.2)
               | _, _ => none) := rfl
          rw [st, ih]
          simp [unescChar]
        · by_cases h4 : c = '\t'
          · subst h4
            show parseStringBody ('\\' :: 't' :: (escapeChars cs ++ '"' :: rest)) = _
            have st : parseStringBody ('\\' :: 't' :: (escapeChars cs ++ '"' :: rest)) =
                (match unescChar 't', parseStringBody (escapeChars cs ++ '"' :: rest) with
                 | some d, some p => some (d :: p.1, p.2)
                 | _, _ => none) := rfl
            rw [st, ih]
            simp [unescChar]
          · have e1 : (c == '"') = false := by simp [h1]
            have e2 : (c == '\\') = false := by simp [h2]
            have e3 : (c == '\n') = false := by simp [h3]
            have e4 : (c == '\t') = false := by simp [h4]
            have hesc : escapeChars (c :: cs) ++ '"' :: rest
                = c :: (escapeChars cs ++ '"' :: rest) := by
              simp [escapeChars, escChar, e1, e2, e3, e4]
            rw [hesc]
            have st : parseStringBody (c :: (escapeChars cs ++ '"' :: rest)) =
                (if c == '"' then some ([], escapeChars cs ++ '"' :: rest)
                 else if c == '\\' then parseEscaped (escapeChars cs ++ '"' :: rest)
                 else
                   match parseStringBody (escapeChars cs ++ '"' :: rest) with
                   | some p => some (c :: p.1, p.2)
                   | none => none) := rfl
            rw [st, ih]
            simp [e1, e2]

/-- The serialization of any JSON value starts with a character that is
not whitespace, not a closing bracket and not a closing brace. -/
theorem serialize_cons_shape (j : Json) : ∃ c t, serialize j = c :: t ∧ isWsChar c = false ∧
    (c == ']') = false ∧ (c == '\x7d') = false := by
  cases j with
  | null => exact ⟨'n', _, rfl, rfl, rfl, rfl⟩
  | bool b =>
    cases b with
    | false => exact ⟨'f', _, rfl, rfl, rfl, rfl⟩
    | true => exact ⟨'t', _, rfl, rfl, rfl, rfl⟩
  | num n =>
    by_cases hn : n < 0
    · refine ⟨'-', natToChars n.natAbs, ?_, rfl, rfl, rfl⟩
      simp [serialize, serializeNum, hn]
    · obtain ⟨c, t, hsh⟩ : ∃ c t, natToChars n.natAbs = c :: t := by
        cases h : natToChars n.natAbs with
        | nil => exact absurd h (natToChars_ne_nil _)
        | cons a b => exact ⟨a, b, rfl⟩
      have hd : c.isDigit = true := natToChars_digits _ c (by rw [hsh]; simp)
      refine ⟨c, t, ?_, isDigit_not_ws c hd, isDigit_ne c ']' hd (by decide),
        isDigit_ne c '\x7d' hd (by decide)⟩
      simp [serialize, serializeNum, hn, hsh]
  | str s => exact ⟨'"', _, rfl, rfl, rfl, rfl⟩
  | arr items => exact ⟨'[', _, rfl, rfl, rfl, rfl⟩
  | obj fields => exact ⟨'\x7b', _, rfl, rfl, rfl, rfl⟩

theorem parseVal_str_step (f : Nat) (x : List Char) :
    parseVal (f + 1) ('"' :: x) =
      (match parseStringBody x with
       | some p => some (Json.str (String.mk p.1), p.2)
       | none => none) := rfl

theorem parseVal_neg_step (f : Nat) (x : List Char) :
    parseVal (f + 1) ('-' :: x) =
      (match parseNum ('-' :: x) with
       | some p => some (Json.num p.1, p.2)
       | none => none) := rfl

theorem parseVal_arr_step (f : Nat) (c : Char) (y : List Char)
    (hws : isWsChar c = false) (hbr : (c == ']') = false) :
    parseVal (f + 1) ('[' :: (c :: y)) =
      (match parseItems f (c :: y) with
       | some p => some (Json.arr p.1, p.2)
       | none => none) := by
  have st : parseVal (f + 1) ('[' :: (c :: y)) =
      (match skipWs (c :: y) with
       | [] => none
       | c2 :: r2 =>
         if c2 == ']' then some (.arr [], r2)
         else
           match parseItems f (c2 :: r2) with
           | some p => some (.arr p.1, p.2)
           | none => none) := rfl
  rw [st, skipWs_cons c y hws]
  simp [hbr]

theorem parseVal_obj_step (f : Nat) (c : Char) (y : List Char)
    (hws : isWsChar c = false) (hbc : (c == '\x7d') = false) :
    parseVal (f + 1) ('\x7b' :: (c :: y)) =
      (match parseFieldItems f (c :: y) with
       | some p => some (Json.obj p.1, p.2)
       | none => none) := by
  have st : parseVal (f + 1) ('\x7b' :: (c :: y)) =
      (match skipWs (c :: y) with
       | [] => none
       | c2 :: r2 =>
         if c2 == '\x7d' then some (.obj [], r2)
         else
           match parseFieldItems f (c2 :: r2) with
           | some p => some (.obj p.1, p.2)
           | none => none) := rfl
  rw [st, skipWs_cons c y hws]
  simp [hbc]

theorem parseVal_num_step (f : Nat) (c : Char) (r : List Char) (hdig : c.isDigit = true) :
    parseVal (f + 1) (c :: r) =
      (match parseNum (c :: r) with
       | some p => some (Json.num p.1, p.2)
       | none => none) := by
  simp only [parseVal]
  rw [skipWs_cons c r (isDigit_not_ws c hdig)]
  simp [isDigit_ne c '"' hdig (by decide), isDigit_ne c '[' hdig (by decide),
    isDigit_ne c '\x7b' hdig (by decide), isDigit_ne c 't' hdig (by decide),
    isDigit_ne c 'f' hdig (by decide), isDigit_ne c 'n' hdig (by decide)]

mutual
theorem parseVal_serialize (j : Json) : ∀ (fuel : Nat) (rest : List Char),
    jsize j ≤ fuel → headNotDigit rest = true →
    parseVal fuel (serialize j ++ rest) = some (j, rest) := by
  cases j with
  | null =>
    intro fuel rest hfuel _
    obtain ⟨f, rfl⟩ : ∃ f, fuel = f + 1 := ⟨fuel - 1, by simp [jsize] at hfuel; omega⟩
    rfl
  | bool b =>
    intro fuel rest hfuel _
    obtain ⟨f, rfl⟩ : ∃ f, fuel = f + 1 := ⟨fuel - 1, by simp [jsize] at hfuel; omega⟩
    cases b <;> rfl
  | str s =>
    intro fuel rest hfuel _
    obtain ⟨f, rfl⟩ : ∃ f, fuel = f + 1 := ⟨fuel - 1, by simp [jsize] at hfuel; omega⟩
    have hl : serialize (.str s) ++ rest = '"' :: (escapeChars s.data ++ '"' :: rest) := by
      show ('"' :: (escapeChars s.data ++ ['"'])) ++ rest = _
      simp
    rw [hl, parseVal_str_step, parseStringBody_escape]
  | num n =>
    intro fuel rest hfuel hrest
    obtain ⟨f, rfl⟩ : ∃ f, fuel = f + 1 := ⟨fuel - 1, by simp [jsize] at hfuel; omega⟩
    by_cases hn : n < 0
    · have hl : serialize (.num n) ++ rest = '-' :: (natToChars n.natAbs ++ rest) := by
        simp [serialize, serializeNum, hn]
      rw [hl, parseVal_neg_step]
      have st2 : parseNum ('-' :: (natToChars n.natAbs ++ rest)) =
          (let p := spanDigits (natToChars n.natAbs ++ rest)
           if p.1.isEmpty then none else some (-(charsToNat p.1 : Int), p.2)) := rfl
      rw [st2, spanDigits_append _ _ (natToChars_digits _) hrest]
      have hval : -(charsToNat (natToChars n.natAbs) : Int) = n := by
        rw [charsToNat_natToChars]
        omega
      simp [isEmpty_false_of_ne_nil _ (natToChars_ne_nil _), hval]
    · obtain ⟨c, t, hsh⟩ : ∃ c t, natToChars n.natAbs = c :: t := by
        cases h : natToChars n.natAbs with
        | nil => exact absurd h (natToChars_ne_nil _)
        | cons a b => exact ⟨a, b, rfl⟩
      have hd : c.isDigit = true := natToChars_digits _ c (by rw [hsh]; simp)
      have hl : serialize (.num n) ++ rest = c :: (t ++ rest) := by
        simp [serialize, serializeNum, hn, hsh]
      rw [hl, parseVal_num_step f c (t ++ rest) hd]
      have hback : c :: (t ++ rest) = natToChars n.natAbs ++ rest := by
        rw [hsh]
        simp
      have hp : parseNum (c :: (t ++ rest)) = some (n, rest) := by
        simp only [parseNum]
        rw [isDigit_ne c '-' hd (by decide)]
        simp only [Bool.false_eq_true, if_false]
        rw [hback, spanDigits_append _ _ (natToChars_digits _) hrest]
        have hval : (charsToNat (natToChars n.natAbs) : Int) = n := by
          rw [charsToNat_natToChars]
          omega
        simp [isEmpty_false_of_ne_nil _ (natToChars_ne_nil _), hval]
      rw [hp]
  | arr items =>
    cases items with
    | nil =>
      intro fuel rest hfuel _
      obtain ⟨f, rfl⟩ : ∃ f, fuel = f + 1 := ⟨fuel - 1, by simp [jsize, isize] at hfuel; omega⟩
      rfl
    | cons v vs =>
      intro fuel rest hfuel hrest
      obtain ⟨f, rfl⟩ : ∃ f, fuel = f + 1 := ⟨fuel - 1, by simp [jsize] at hfuel; omega⟩
      obtain ⟨c, t, hsh, hws, hbr, hbc⟩ := serialize_cons_shape v
      obtain ⟨t2, hsh2⟩ : ∃ t2, serializeItemsL (v :: vs) = c :: t2 := by
        cases vs with
        | nil => exact ⟨t, by simp [serializeItemsL, hsh]⟩
        | cons w ws =>
          exact ⟨t ++ ',' :: serializeItemsL (w :: ws), by simp [serializeItemsL, hsh]⟩
      have hl : serialize (.arr (v :: vs)) ++ rest = '[' :: (c :: (t2 ++ ']' :: rest)) := by
        show ('[' :: (serializeItemsL (v :: vs) ++ [']'])) ++ rest = _
        rw [hsh2]
        simp
      rw [hl, parseVal_arr_step f c _ hws hbr]
      have hback : c :: (t2 ++ ']' :: rest) = serializeItemsL (v :: vs) ++ ']' :: rest := by
        rw [hsh2]
        simp
      rw [hback, parseItems_serialize (v :: vs) (by simp) f rest
        (by simp [jsize] at hfuel; omega)]
  | obj fields =>
    cases fields with
    | nil =>
      intro fuel rest hfuel _
      obtain ⟨f, rfl⟩ : ∃ f, fuel = f + 1 := ⟨fuel - 1, by simp [jsize, fsize] at hfuel; omega⟩
      rfl
    | cons kv fs =>
      obtain ⟨k, v⟩ := kv
      intro fuel rest hfuel hrest
      obtain ⟨f, rfl⟩ : ∃ f, fuel = f + 1 := ⟨fuel - 1, by simp [jsize] at hfuel; omega⟩
      obtain ⟨y, hsh2⟩ : ∃ y, serializeFieldsL ((k, v) :: fs) = '"' :: y := by
        cases fs with
        | nil => exact ⟨_, rfl⟩
        | cons kv2 fs2 => exact ⟨_, rfl⟩
      have hl : serialize (.obj ((k, v) :: fs)) ++ rest = '\x7b' :: ('"' :: (y ++ '\x7d' :: rest)) := by
        show ('\x7b' :: (serializeFieldsL ((k, v) :: fs) ++ ['\x7d'])) ++ rest = _
        rw [hsh2]
        simp
      rw [hl, parseVal_obj_step f '"' _ (by decide) (by decide)]
      have hback : '"' :: (y ++ '\x7d' :: rest) = serializeFieldsL ((k, v) :: fs) ++ '\x7d' :: rest := by
        rw [hsh2]
        simp
      rw [hback, parseFieldItems_serialize ((k, v) :: fs) (by simp) f rest
        (by simp [jsize] at hfuel; omega)]

theorem parseItems_serialize (vs : List Json) (hne : vs ≠ []) : ∀ (fuel : Nat) (rest : List Char),
    isize vs ≤ fuel →
    parseItems fuel (serializeItemsL vs ++ ']' :: rest) = some (vs, rest) := by
  cases vs with
  | nil => exact absurd rfl hne
  | cons v vs2 =>
    intro fuel rest hfuel
    obtain ⟨f, rfl⟩ : ∃ f, fuel = f + 1 := ⟨fuel - 1, by simp [isize] at hfuel; omega⟩
    cases vs2 with
    | nil =>
      have hl : serializeItemsL [v] ++ ']' :: rest = serialize v ++ ']' :: rest := by
        simp [serializeItemsL]
      rw [hl]
      simp only [parseItems]
      rw [parseVal_serialize v f (']' :: rest) (by simp [isize] at hfuel; omega) rfl]
      simp [skipWs, isWsChar]
    | cons w ws =>
      have hl : serializeItemsL (v :: w :: ws) ++ ']' :: rest
          = serialize v ++ (',' :: (serializeItemsL (w :: ws) ++ ']' :: rest)) := by
        simp [serializeItemsL]
      rw [hl]
      simp only [parseItems]
      rw [parseVal_serialize v f (',' :: (serializeItemsL (w :: ws) ++ ']' :: rest))
        (by simp [isize] at hfuel; omega) rfl]
      simp [skipWs, isWsChar]
      rw [parseItems_serialize (w :: ws) (by simp) f rest (by simp [isize] at hfuel ⊢; omega)]

theorem parseFieldItems_serialize (fs : List (String × Json)) (hne : fs ≠ []) :
    ∀ (fuel : Nat) (rest : List Char), fsize fs ≤ fuel →
    parseFieldItems fuel (serializeFieldsL fs ++ '\x7d' :: rest) = some (fs, rest) := by
  cases fs with
  | nil => exact absurd rfl hne
  | cons kv fs2 =>
    obtain ⟨k, v⟩ := kv
    intro fuel rest hfuel
    obtain ⟨f, rfl⟩ : ∃ f, fuel = f + 1 := ⟨fuel - 1, by simp [fsize] at hfuel; omega⟩
    cases fs2 with
    | nil =>
      have hl : serializeFieldsL [(k, v)] ++ '\x7d' :: rest
          = '"' :: (escapeChars k.data ++ '"' :: (':' :: (serialize v ++ '\x7d' :: rest))) := by
        show (serializeString k ++ ':' :: serialize v) ++ '\x7d' :: rest = _
        simp [serializeString]
      rw [hl]
      simp only [parseFieldItems]
      rw [skipWs_cons '"' _ (by decide)]
      simp
      rw [parseStringBody_escape]
      simp [skipWs, isWsChar]
      rw [parseVal_serialize v f ('\x7d' :: rest) (by simp [fsize] at hfuel; omega) rfl]
      simp [skipWs, isWsChar, stringMk_data]
    | cons kv2 fs3 =>
      have hl : serializeFieldsL ((k, v) :: kv2 :: fs3) ++ '\x7d' :: rest
          = '"' :: (escapeChars k.data ++ '"' :: (':' :: (serialize v ++ ',' :: (serializeFieldsL (kv2 :: fs3) ++ '\x7d' :: rest)))) := by
        show (serializeString k ++ ':' :: (serialize v ++ ',' :: serializeFieldsL (kv2 :: fs3))) ++ '\x7d' :: rest = _
        simp [serializeString]
      rw [hl]
      simp only [parseFieldItems]
      rw [skipWs_cons '"' _ (by decide)]
      simp
      rw [parseStringBody_escape]
      simp [skipWs, isWsChar]
      rw [parseVal_serialize v f (',' :: (serializeFieldsL (kv2 :: fs3) ++ '\x7d' :: rest))
        (by simp [fsize] at hfuel; omega) rfl]
      simp [skipWs, isWsChar]
      all_goals rw [parseFieldItems_serialize (kv2 :: fs3) (by simp) f rest
        (by simp [fsize] at hfuel ⊢; omega)]
end

mutual
/-- The parser fuel needed for a value is bounded by its serialized
length. -/
theorem jsize_le (j : Json) : jsize j ≤ (serialize j).length := by
  cases j with
  | null => simp [jsize, serialize]
  | bool b => cases b <;> simp [jsize, serialize]
  | num n =>
    have h1 : 0 < (natToChars n.natAbs).length := List.length_pos.mpr (natToChars_ne_nil _)
    by_cases hn : n < 0 <;> simp [jsize, serialize, serializeNum, hn] <;> omega
  | str s => simp [jsize, serialize, serializeString]
  | arr items =>
    have h := isize_le items
    simp [jsize, serialize] at h ⊢
    omega
  | obj fields =>
    have h := fsize_le fields
    simp [jsize, serialize] at h ⊢
    omega

/-- The parser fuel needed for array items is bounded by their
serialized length plus one. -/
theorem isize_le (vs : List Json) : isize vs ≤ (serializeItemsL vs).length + 1 := by
  cases vs with
  | nil => simp [isize]
  | cons v vs2 =>
    cases vs2 with
    | nil =>
      have h := jsize_le v
      simp [isize, serializeItemsL]
      omega
    | cons w ws =>
      have h1 := jsize_le v
      have h2 := isize_le (w :: ws)
      simp [isize, serializeItemsL] at h2 ⊢
      omega

/-- The parser fuel needed for object fields is bounded by their
serialized length plus one. -/
theorem fsize_le (fs : List (String × Json)) : fsize fs ≤ (serializeFieldsL fs).length + 1 := by
  cases fs with
  | nil => simp [fsize]
  | cons kv fs2 =>
    obtain ⟨k, v⟩ := kv
    cases fs2 with
    | nil =>
      have h := jsize_le v
      simp [fsize, serializeFieldsL]
      omega
    | cons kv2 fs3 =>
      have h1 := jsize_le v
      have h2 := fsize_le (kv2 :: fs3)
      simp [fsize, serializeFieldsL] at h2 ⊢
      omega
end

/-- The candidate of a serialized object is the whole text: it starts
with the first opening brace and ends with the last closing brace. -/
theorem extractCandidate_obj (F : List Char) :
    extractCandidate ('\x7b' :: (F ++ ['\x7d'])) = some ('\x7b' :: (F ++ ['\x7d'])) := by
  simp only [extractCandidate]
  rw [dropWhile_cons_false _ _ _ (by decide)]
  have hrev : ('\x7b' :: (F ++ ['\x7d'])).reverse = '\x7d' :: (F.reverse ++ ['\x7b']) := by
    simp
  rw [hrev, dropWhile_cons_false _ _ _ (by decide)]
  have hrev2 : ('\x7d' :: (F.reverse ++ ['\x7b'])).reverse = '\x7b' :: (F ++ ['\x7d']) := by
    simp
  rw [hrev2]
  simp

/-- The Output Extractor on the serialization of a JSON object reduces
to the field validation of that object. -/
theorem parserModelL_serialize_obj (fs : List (String × Json)) :
    parserModelL (serialize (Json.obj fs)) =
      (if validateFields fs then Except.ok (Json.obj fs) else Except.error PipelineError.parseError) := by
  have hser : serialize (Json.obj fs) = '\x7b' :: (serializeFieldsL fs ++ ['\x7d']) := rfl
  have hps : parseVal (('\x7b' :: (serializeFieldsL fs ++ ['\x7d'])).length + 1)
      ('\x7b' :: (serializeFieldsL fs ++ ['\x7d'])) = some (Json.obj fs, []) := by
    have h0 := parseVal_serialize (Json.obj fs) ((serialize (Json.obj fs)).length + 1) []
      (by have := jsize_le (Json.obj fs); omega) rfl
    rw [List.append_nil] at h0
    rw [hser] at h0
    exact h0
  have hps2 : parseVal ((serializeFieldsL fs).length + 1 + 1 + 1)
      ('\x7b' :: (serializeFieldsL fs ++ ['\x7d'])) = some (Json.obj fs, []) := by
    have hlen : ('\x7b' :: (serializeFieldsL fs ++ ['\x7d'])).length + 1
        = (serializeFieldsL fs).length + 1 + 1 + 1 := by
      simp
    rw [← hlen]
    exact hps
  unfold parserModelL
  rw [hser, extractCandidate_obj]
  simp [hps2, validateJson]

/-- The Output Extractor succeeds on the serialization of any object
whose fields validate, returning that object unchanged. -/
theorem parserModel_serialize_obj (fs : List (String × Json))
    (h : validateFields fs = true) :
    parserModel (String.mk (serialize (Json.obj fs))) = Except.ok (Json.obj fs) := by
  show parserModelL (serialize (Json.obj fs)) = _
  rw [parserModelL_serialize_obj]
  simp [h]

/-- A text that starts with an opening brace and ends with a closing
brace is its own candidate. -/
theorem extractCandidate_brace (body b1 b0 : List Char)
    (hb1 : body = '\x7b' :: b1) (hb0 : body = b0 ++ ['\x7d']) :
    extractCandidate body = some body := by
  simp only [extractCandidate]
  have h1 : List.dropWhile (fun c => c != '\x7b') body = body := by
    rw [hb1]
    exact dropWhile_cons_false _ _ _ (by decide)
  rw [h1]
  have h2 : body.reverse.dropWhile (fun c => c != '\x7d') = '\x7d' :: b0.reverse := by
    rw [hb0]
    simp only [List.reverse_append, List.reverse_cons, List.reverse_nil, List.nil_append,
      List.singleton_append]
    exact dropWhile_cons_false _ _ _ (by decide)
  rw [h2]
  have h3 : ('\x7d' :: b0.reverse).reverse = body := by
    rw [hb0]
    simp
  rw [h3, isEmpty_false_of_ne_nil body (by rw [hb1]; simp)]
  simp

/-- Wrapping a brace-delimited body in brace-free prose does not change
the candidate. -/
theorem extractCandidate_wrapped (pre body post b1 b0 : List Char)
    (hpre : ∀ c ∈ pre, c ≠ '\x7b') (hpost : ∀ c ∈ post, c ≠ '\x7d')
    (hb1 : body = '\x7b' :: b1) (hb0 : body = b0 ++ ['\x7d']) :
    extractCandidate (pre ++ body ++ post) = some body := by
  simp only [extractCandidate]
  have h1 : List.dropWhile (fun c => c != '\x7b') (pre ++ body ++ post) = body ++ post := by
    rw [List.append_assoc,
      dropWhile_append_all _ pre _ (fun c hc => by simpa using hpre c hc), hb1,
      List.cons_append, dropWhile_cons_false _ _ _ (by decide), ← List.cons_append, ← hb1]
  rw [h1]
  have h2 : (body ++ post).reverse.dropWhile (fun c => c != '\x7d') = '\x7d' :: b0.reverse := by
    rw [List.reverse_append,
      dropWhile_append_all _ post.reverse _
        (fun c hc => by simpa using hpost c (List.mem_reverse.mp hc)), hb0]
    simp only [List.reverse_append, List.reverse_cons, List.reverse_nil, List.nil_append,
      List.singleton_append]
    exact dropWhile_cons_false _ _ _ (by decide)
  rw [h2]
  have h3 : ('\x7d' :: b0.reverse).reverse = body := by
    rw [hb0]
    simp
  rw [h3, isEmpty_false_of_ne_nil body (by rw [hb1]; simp)]
  simp

/-- A successful extraction always comes from an object that passed the
field validation. -/
theorem parserModelL_ok_shape (l : List Char) (j : Json)
    (h : parserModelL l = Except.ok j) :
    ∃ fs, j = Json.obj fs ∧ validateFields fs = true := by
  unfold parserModelL at h
  cases he : extractCandidate l with
  | none =>
    rw [he] at h
    exact absurd h (by simp)
  | some cand =>
    rw [he] at h
    have h2 : (match parseVal (cand.length + 1) cand with
      | some (j, []) => validateJson j
      | _ => Except.error PipelineError.parseError) = Except.ok j := h
    cases hp : parseVal (cand.length + 1) cand with
    | none =>
      rw [hp] at h2
      exact absurd h2 (by simp)
    | some pr =>
      obtain ⟨j0, restl⟩ := pr
      rw [hp] at h2
      cases restl with
      | cons a b => simp at h2
      | nil =>
        cases j0 with
        | obj fs =>
          by_cases hv : validateFields fs
          · simp [validateJson, hv] at h2
            exact ⟨fs, h2.symm, hv⟩
          · simp [validateJson, hv] at h2
        | null => simp [validateJson] at h2
        | bool b => simp [validateJson] at h2
        | num n => simp [validateJson] at h2
        | str s => simp [validateJson] at h2
        | arr items => simp [validateJson] at h2

/-- A validated field list contains the three declared fields with the
declared types. -/
theorem validateFields_spec (fs : List (String × Json)) (h : validateFields fs = true) :
    ∃ n p items, getField fs kName = some (Json.str n) ∧
      getField fs kPrice = some (Json.num p) ∧
      getField fs kFeatures = some (Json.arr items) ∧ items.all isStrVal = true := by
  unfold validateFields at h
  split at h
  · rename_i n p items heqn heqp heqf
    exact ⟨n, p, items, heqn, heqp, heqf, h⟩
  · exact absurd h (by simp)

/-- Field lists with the three declared fields validate. -/
theorem validateFields_of (fs : List (String × Json)) (n : String) (p : Int)
    (items : List Json) (h1 : getField fs kName = some (Json.str n))
    (h2 : getField fs kPrice = some (Json.num p))
    (h3 : getField fs kFeatures = some (Json.arr items))
    (hall : items.all isStrVal = true) : validateFields fs = true := by
  unfold validateFields
  rw [h1, h2, h3]
  exact hall

/-- The retry loop returns the first successful attempt when the
earlier ones fail transiently. -/
theorem runAttempts_succeeds {α : Type} (attempt : Nat → Option α) :
    ∀ (k n start : Nat) (x : α), k < n → (∀ i, i < k → attempt (start + i) = none) →
    attempt (start + k) = some x → (runAttempts attempt start n).1 = Except.ok x := by
  intro k
  induction k with
  | zero =>
    intro n start x hkn _ hsucc
    obtain ⟨m, rfl⟩ : ∃ m, n = m + 1 := ⟨n - 1, by omega⟩
    simp only [Nat.add_zero] at hsucc
    simp [runAttempts, hsucc]
  | succ k ih =>
    intro n start x hkn hfail hsucc
    obtain ⟨m, rfl⟩ : ∃ m, n = m + 1 := ⟨n - 1, by omega⟩
    have h0 : attempt start = none := by simpa using hfail 0 (by omega)
    simp [runAttempts, h0]
    exact ih m (start + 1) x (by omega)
      (fun i hi => by
        have hh := hfail (i + 1) (by omega)
        rw [show start + 1 + i = start + (i + 1) from by omega]
        exact hh)
      (by
        rw [show start + 1 + k = start + (k + 1) from by omega]
        exact hsucc)

/-- The retry loop reports exhausted retries when every attempt fails
transiently. -/
theorem runAttempts_exhausts {α : Type} (attempt : Nat → Option α) :
    ∀ (n start : Nat), (∀ i, i < n → attempt (start + i) = none) →
    (runAttempts attempt start n).1 = Except.error PipelineError.exhaustedRetries := by
  intro n
  induction n with
  | zero => intro start _; rfl
  | succ m ih =>
    intro start h
    have h0 : attempt start = none := by simpa using h 0 (by omega)
    simp [runAttempts, h0]
    exact ih (start + 1) (fun i hi => by
      have hh := h (i + 1) (by omega)
      rw [show start + 1 + i = start + (i + 1) from by omega]
      exact hh)

/-- The formatted system message is one fixed string for every input. -/
theorem formatTemplate_sys (inp : String) : formatTemplate sysTemplate inp = fixedSystemContent := rfl

/-- The formatted user message is the input text verbatim. -/
theorem formatTemplate_user (inp : String) : formatTemplate userTemplate inp = inp := by
  show String.mk (substCore inp.data userTemplate.data) = inp
  have h : substCore inp.data userTemplate.data = inp.data ++ [] := rfl
  rw [h, List.append_nil]

/-- The Prompt Builder always produces exactly the fixed system message
followed by the verbatim user message. -/
theorem formatPrompt_eq (inp : String) :
    formatPrompt inp = [⟨Role.system, fixedSystemContent⟩, ⟨Role.user, inp⟩] := by
  show [(⟨Role.system, formatTemplate sysTemplate inp⟩ : ChatMessage),
    ⟨Role.user, formatTemplate userTemplate inp⟩] = _
  rw [formatTemplate_sys, formatTemplate_user]

/-- C1: for every completion text whose contained JSON object is missing
any of the three required fields (name, price, features) or has a field
of the wrong type, the Output Extractor fails with a ParseError and
never returns a partial or malformed object as success; in particular a
completion with a missing price field yields ParseError, not a
two-field result. -/
theorem extractor_rejects_missing_or_mistyped_fields :
    (∀ (s : String) (j : Json), parserModel s = Except.ok j →
      ∃ fs n p items, j = Json.obj fs ∧ getField fs kName = some (Json.str n) ∧
        getField fs kPrice = some (Json.num p) ∧
        getField fs kFeatures = some (Json.arr items) ∧ items.all isStrVal = true) ∧
    parserModel exMissingPrice = Except.error PipelineError.parseError := by
  constructor
  · intro s j h
    obtain ⟨fs, hj, hv⟩ := parserModelL_ok_shape s.data j h
    obtain ⟨n, p, items, h1, h2, h3, h4⟩ := validateFields_spec fs hv
    exact ⟨fs, n, p, items, hj, h1, h2, h3, h4⟩
  · rfl

/-- Witness for C1: the success branch instantiated at a concrete valid
completion. -/
theorem extractor_rejects_missing_or_mistyped_fields_witness :
    ∃ fs n p items, Json.obj exGoodFields = Json.obj fs ∧
      getField fs kName = some (Json.str n) ∧ getField fs kPrice = some (Json.num p) ∧
      getField fs kFeatures = some (Json.arr items) ∧ items.all isStrVal = true :=
  extractor_rejects_missing_or_mistyped_fields.1 exGoodText (Json.obj exGoodFields) (by rfl)

/-- C2: for every input text, the Prompt Builder produces exactly two
messages, in order system then user, where the user message content
equals the input text verbatim; no validation is applied, so this holds
for empty and non-product input as well. -/
theorem promptBuilder_two_messages_verbatim (input : String) :
    formatPrompt input = [ChatMessage.mk Role.system fixedSystemContent,
      ChatMessage.mk Role.user input] :=
  formatPrompt_eq input

/-- C3: for every completion text that is a bare, well-formed JSON
object containing the three required fields name (string), price
(number) and features (array of strings), the Output Extractor succeeds
and returns an ExtractionResult whose field values are identical to
those in the JSON text. -/
theorem extractor_roundtrip_bare_json (fs : List (String × Json)) (n : String) (p : Int)
    (items : List Json) (h1 : getField fs kName = some (Json.str n))
    (h2 : getField fs kPrice = some (Json.num p))
    (h3 : getField fs kFeatures = some (Json.arr items))
    (hall : items.all isStrVal = true) :
    parserModel (String.mk (serialize (Json.obj fs))) = Except.ok (Json.obj fs) :=
  parserModel_serialize_obj fs (validateFields_of fs n p items h1 h2 h3 hall)

/-- Witness for C3 at a concrete object. -/
theorem extractor_roundtrip_bare_json_witness :
    parserModel (String.mk (serialize (Json.obj exGoodFields))) = Except.ok (Json.obj exGoodFields) :=
  extractor_roundtrip_bare_json exGoodFields ("Speedster") 14499 [Json.str ("dual boilers")]
    (by rfl) (by rfl) (by rfl) (by rfl)

/-- C4: wrapping a brace-delimited JSON object in brace-free prose and
markdown fences (before and after) gives the same extraction result as
the bare text. -/
theorem extractor_tolerates_wrapping (pre body post : String)
    (hpre : ∀ c ∈ pre.data, c ≠ '\x7b') (hpost : ∀ c ∈ post.data, c ≠ '\x7d')
    (hhead : body.data.head? = some '\x7b') (hlast : body.data.getLast? = some '\x7d') :
    parserModel (pre ++ body ++ post) = parserModel body := by
  obtain ⟨b1, hb1⟩ : ∃ b1, body.data = '\x7b' :: b1 := by
    cases hb : body.data with
    | nil =>
      rw [hb] at hhead
      simp at hhead
    | cons a r =>
      rw [hb] at hhead
      simp at hhead
      exact ⟨r, by rw [hhead]⟩
  obtain ⟨b0, hb0⟩ : ∃ b0, body.data = b0 ++ ['\x7d'] := by
    have hne : body.data ≠ [] := by rw [hb1]; simp
    refine ⟨body.data.dropLast, ?_⟩
    have hg : body.data.getLast hne = '\x7d' := by
      rw [List.getLast?_eq_getLast body.data hne] at hlast
      simpa using hlast
    rw [← hg]
    exact (List.dropLast_append_getLast hne).symm
  show parserModelL (pre ++ body ++ post).data = parserModelL body.data
  rw [string_data_append, string_data_append]
  unfold parserModelL
  rw [extractCandidate_wrapped pre.data body.data post.data b1 b0 hpre hpost hb1 hb0,
    extractCandidate_brace body.data b1 b0 hb1 hb0]

/-- Witness for C4 at a concrete fenced completion. -/
theorem extractor_tolerates_wrapping_witness :
    parserModel (exC4Pre ++ exGoodText ++ exC4Post) = parserModel exGoodText :=
  extractor_tolerates_wrapping exC4Pre exGoodText exC4Post (by decide) (by decide)
    (by rfl) (by rfl)

/-- C5: the Model Client retries a transiently failing request up to
maxRetries additional times: if the first k attempts fail transiently
and attempt k+1 succeeds with k ≤ maxRetries, the overall call succeeds
and returns that result; if all maxRetries + 1 attempts fail, the call
fails with ExhaustedRetriesError; the configured maxRetries in this
program is 2. -/
theorem modelClient_retry_behavior :
    (∀ (key : String) (valid : String → Bool) (cfg : ModelConfig)
      (attempt : Nat → Option String) (k : Nat) (x : String), valid key = true →
      k ≤ cfg.maxRetries → (∀ i, i < k → attempt i = none) → attempt k = some x →
      (modelClient (some key) valid cfg attempt).1 = Except.ok x) ∧
    (∀ (key : String) (valid : String → Bool) (cfg : ModelConfig)
      (attempt : Nat → Option String), valid key = true →
      (∀ i, i ≤ cfg.maxRetries → attempt i = none) →
      (modelClient (some key) valid cfg attempt).1
        = Except.error PipelineError.exhaustedRetries) ∧
    llm.maxRetries = 2 := by
  refine ⟨?_, ?_, rfl⟩
  · intro key valid cfg attempt k x hvalid hk hfail hsucc
    unfold modelClient
    simp only [hvalid, if_true]
    exact runAttempts_succeeds attempt k (cfg.maxRetries + 1) 0 x (by omega)
      (fun i hi => by simpa using hfail i hi) (by simpa using hsucc)
  · intro key valid cfg attempt hvalid hfail
    unfold modelClient
    simp only [hvalid, if_true]
    exact runAttempts_exhausts attempt (cfg.maxRetries + 1) 0
      (fun i hi => by simpa using hfail i (by omega))

/-- Witness for C5: failure on the first two attempts then success, and
failure on every attempt, under the configured retry count. -/
theorem modelClient_retry_behavior_witness :
    (modelClient (some ("key")) (fun _ => true) llm exAttempt).1 = Except.ok ("ok") ∧
    (modelClient (some ("key")) (fun _ => true) llm (fun _ => (none : Option String))).1
      = Except.error PipelineError.exhaustedRetries := by
  constructor
  · exact modelClient_retry_behavior.1 ("key") (fun _ => true) llm exAttempt 2 ("ok") rfl
      (by decide) (fun i hi => by simp [exAttempt, hi]) (by rfl)
  · exact modelClient_retry_behavior.2.1 ("key") (fun _ => true) llm
      (fun _ => (none : Option String)) rfl (fun i _ => rfl)

/-- C6: if the API credential is missing or invalid, the call fails
fatally with a ConfigError before any outbound network request is made
(zero requests), and this failure is never retried. -/
theorem modelClient_config_error_no_network (apiKey : Option String)
    (valid : String → Bool) (cfg : ModelConfig) (attempt : Nat → Option String)
    (h : apiKey = none ∨ ∃ k, apiKey = some k ∧ valid k = false) :
    modelClient apiKey valid cfg attempt = (Except.error PipelineError.configError, 0) := by
  rcases h with h | ⟨k, hk, hv⟩
  · subst h
    rfl
  · subst hk
    unfold modelClient
    simp [hv]

/-- Witness for C6 at a missing credential. -/
theorem modelClient_config_error_no_network_witness :
    modelClient (none : Option String) (fun _ => true) llm (fun _ => some ("ok"))
      = (Except.error PipelineError.configError, 0) :=
  modelClient_config_error_no_network none (fun _ => true) llm (fun _ => some ("ok"))
    (Or.inl rfl)

/-- C7: for every input text, the system message produced by the Prompt
Builder is one and the same fixed string, independent of the input, and
that string declares the required output shape with the field names
name, price and features. -/
theorem promptBuilder_fixed_system_message (input : String) :
    (formatPrompt input).head? = some (ChatMessage.mk Role.system fixedSystemContent) ∧
    hasSubstr kName.data fixedSystemContent.data = true ∧
    hasSubstr kPrice.data fixedSystemContent.data = true ∧
    hasSubstr kFeatures.data fixedSystemContent.data = true := by
  refine ⟨?_, rfl, rfl, rfl⟩
  rw [formatPrompt_eq]
  rfl

/-- C8: on success, the text written to standard output by parseProduct
is exactly the formatted JSON serialization of the result the pipeline
produced, which parseProduct also returns to its caller. -/
theorem parseProduct_prints_returned_result
    (complete : List ChatMessage → Except PipelineError String) (description : String)
    (out : List String) (r : Json)
    (h : parseProductModel complete description = Except.ok (out, r)) :
    out = [stringifyFmt r] ∧ chainModel complete description = Except.ok r := by
  unfold parseProductModel at h
  cases hc : chainModel complete description with
  | error e =>
    rw [hc] at h
    exact absurd h (by simp)
  | ok result =>
    rw [hc] at h
    simp at h
    obtain ⟨h1, h2⟩ := h
    constructor
    · rw [← h1, h2]
    · rw [h2]

/-- Witness for C8 with a stubbed model call. -/
theorem parseProduct_prints_returned_result_witness :
    [stringifyFmt (Json.obj exGoodFields)] = [stringifyFmt (Json.obj exGoodFields)] ∧
    chainModel exComplete ("a product description") = Except.ok (Json.obj exGoodFields) :=
  parseProduct_prints_returned_result exComplete ("a product description")
    [stringifyFmt (Json.obj exGoodFields)] (Json.obj exGoodFields) (by rfl)

/-- C9: the Prompt Builder and Output Extractor are stateless: the
result of any invocation is the pure function of its argument,
regardless of the earlier invocations in the run. -/
theorem components_stateless_deterministic (hist : List String) (s : String) :
    (parserRuns (hist ++ [s])).getLast? = some (parserModel s) ∧
    (promptRuns (hist ++ [s])).getLast? = some (formatPrompt s) := by
  constructor
  · unfold parserRuns
    rw [List.map_append]
    simp
  · unfold promptRuns
    rw [List.map_append]
    simp

/-- C10: when the completion text contains a well-formed JSON object
with the three required fields plus extra, unexpected fields, the
Output Extractor succeeds and passes the extra fields through
unmodified in the returned object, rather than stripping them or
failing. -/
theorem extractor_passes_extra_fields (fs : List (String × Json)) (k : String) (v : Json)
    (_hmem : (k, v) ∈ fs) (_hk : k ≠ kName ∧ k ≠ kPrice ∧ k ≠ kFeatures)
    (hval : validateFields fs = true) :
    parserModel (String.mk (serialize (Json.obj fs))) = Except.ok (Json.obj fs) :=
  parserModel_serialize_obj fs hval

/-- Witness for C10 at an object with an extra color field. -/
theorem extractor_passes_extra_fields_witness :
    parserModel (String.mk (serialize (Json.obj exExtraFields))) = Except.ok (Json.obj exExtraFields) :=
  extractor_passes_extra_fields exExtraFields ("color") (Json.str ("red"))
    (List.mem_cons_self _ _) (by decide) (by rfl)
